import Mathlib

/-!
Shallow embedding of `ethercat_controller/src/ethercat_controller.rs`
(pollen-robotics/ethercat_controller).

Modelling conventions:
* Rust `HashMap` lookups are modelled as association lists with
  `List.lookup`; Rust's panicking `map[key]` indexing is modelled by
  `Option` where `none` stands for a panic.
* A Rust panic inside an API call is `Except.error ()`; a successful call
  returning `Option<T>` is `Except.ok (some _)` / `Except.ok none`.
* Byte buffers are `List Nat` (each element a byte value); Rust slice
  indexing `data[s..e]`, which panics when `e > data.len()` or `s > e`,
  is `rustSlice`, returning `none` on the panicking cases.
* `u8` truncation (`as u8`) is `% 256`.
-/

namespace ECat

/-- One record of `PdoOffsets`: `(PdoEntryIdx, u8 bit length, Offset)`.
The entry index is opaque to the controller; the offset's `byte` field is
the only part used by address resolution, the `bit` field is carried
along as in the source. -/
structure OffsetRec where
  entryIdx : Nat
  bitLen : Nat
  byteOff : Nat
  bitOff : Nat
  deriving Repr, DecidableEq

/-- Model of `PdoOffsets = HashMap<String, Vec<(PdoEntryIdx, u8, Offset)>>`. -/
abbrev PdoOffsets := List (String × List OffsetRec)

/-- Model of `SlaveOffsets = HashMap<SlavePos, PdoOffsets>` (slave position as `Nat`). -/
abbrev SlaveOffsets := List (Nat × PdoOffsets)

/-- Model of `SlaveNames = HashMap<String, SlavePos>`. -/
abbrev SlaveNames := List (String × Nat)

/-- Rust slice `data[s..e]`: panics (`none`) unless `s ≤ e ≤ data.len()`. -/
def rustSlice (data : List Nat) (s e : Nat) : Option (List Nat) :=
  if s ≤ e ∧ e ≤ data.length then some ((data.drop s).take (e - s)) else none

/-- Source `get_reg_addr_range` (lines 207–215): resolves a `(slave, register,
index)` triple to the byte range `offset.byte .. offset.byte + bit_len/8`.
The source indexes two `HashMap`s and a `Vec` with panicking `[]`;
`none` models those panics. -/
def get_reg_addr_range (offsets : SlaveOffsets) (slave_id : Nat)
    (register : String) (index : Nat) : Option (Nat × Nat) := do
  let po ← List.lookup slave_id offsets
  let recs ← List.lookup register po
  let r ← recs.get? index
  pure (r.byteOff, r.byteOff + r.bitLen / 8)

/-- Source `get_reg_addr_ranges` (lines 217–229): all byte ranges for a
`(slave, register)` pair, in record order. `none` models the panicking
`HashMap` lookups. -/
def get_reg_addr_ranges (offsets : SlaveOffsets) (slave_id : Nat)
    (register : String) : Option (List (Nat × Nat)) := do
  let po ← List.lookup slave_id offsets
  let recs ← List.lookup register po
  pure (recs.map (fun r => (r.byteOff, r.byteOff + r.bitLen / 8)))

/-- Source `get_pdo_register` (lines 134–145). `Except.error ()` is a panic
(unknown slave/register, out-of-range index, or slice out of the image's
bounds); `Except.ok none` is "no snapshot yet"; `Except.ok (some bytes)`
is a successful read of the snapshot. -/
def get_pdo_register (offsets : SlaveOffsets) (snapshot : Option (List Nat))
    (slave_id : Nat) (register : String) (index : Nat) :
    Except Unit (Option (List Nat)) :=
  match get_reg_addr_range offsets slave_id register index with
  | none => .error ()
  | some (s, e) =>
    match snapshot with
    | none => .ok none
    | some data =>
      match rustSlice data s e with
      | none => .error ()
      | some bytes => .ok (some bytes)

/-- One iteration of the `map` body inside `get_pdo_registers`
(lines 158–162): read one resolved range from the current snapshot. -/
def readRange (snapshot : Option (List Nat)) (r : Nat × Nat) :
    Except Unit (Option (List Nat)) :=
  match snapshot with
  | none => .ok none
  | some data =>
    match rustSlice data r.1 r.2 with
    | none => .error ()
    | some bytes => .ok (some bytes)

/-- The `collect::<Option<Vec<_>>>()` step over the per-range reads: any `none`
makes the whole result `none`; a panic aborts. -/
def collectReads (snapshot : Option (List Nat)) :
    List (Nat × Nat) → Except Unit (Option (List (List Nat)))
  | [] => .ok (some [])
  | r :: rs =>
    match readRange snapshot r with
    | .error () => .error ()
    | .ok none => .ok none
    | .ok (some bytes) =>
      match collectReads snapshot rs with
      | .error () => .error ()
      | .ok none => .ok none
      | .ok (some rest) => .ok (some (bytes :: rest))

/-- Source `get_pdo_registers` (lines 153–165). -/
def get_pdo_registers (offsets : SlaveOffsets) (snapshot : Option (List Nat))
    (slave_id : Nat) (register : String) :
    Except Unit (Option (List (List Nat))) :=
  match get_reg_addr_ranges offsets slave_id register with
  | none => .error ()
  | some rs => collectReads snapshot rs

/-- Source `set_pdo_register` (lines 147–151): resolve the range and submit one
pending write. `none` models the panicking lookups. -/
def set_pdo_register (offsets : SlaveOffsets) (slave_id : Nat)
    (register : String) (index : Nat) (value : List Nat) :
    Option ((Nat × Nat) × List Nat) :=
  (get_reg_addr_range offsets slave_id register index).map (fun r => (r, value))

/-- Source `set_pdo_registers` (lines 167–181): resolve all ranges, warn when the
value count differs from the record count, and enqueue `zip ranges values`
(positional pairing; `zip` truncates to the shorter list, exactly as the
source's iterator `zip` does). Returns `(warning raised, enqueued writes)`. -/
def set_pdo_registers (offsets : SlaveOffsets) (slave_id : Nat)
    (register : String) (values : List (List Nat)) :
    Option (Bool × List ((Nat × Nat) × List Nat)) :=
  (get_reg_addr_ranges offsets slave_id register).map (fun rs =>
    (values.length != rs.length, rs.zip values))

/-! ## The cyclic I/O loop (lines 70–112)

The loop's per-iteration body is modelled as a pure step on an explicit
state.  The external bus exchange (`master.receive` / `process` /
`queue`, lines 71–73), which rewrites the exchange buffer with inbound
data, is a parameter `recv : List Nat → List Nat`; the bus state queried
in the readiness check (line 97) is a pair `(linkUp, alStates)` of
parameters.  `master.send` has no effect on the modelled state. -/

/-- The state shared between the cyclic thread and the API:
the exchange buffer (`data`, owned by the loop), the published snapshot
(`data_lock`), the cycle and ready condvar booleans, the loop-local
`is_ready`, and the channel content (pending writes in submission
order). -/
structure LoopState where
  buffer : List Nat
  snapshot : Option (List Nat)
  cycleFlag : Bool
  readyFlag : Bool
  isReady : Bool
  pending : List ((Nat × Nat) × List Nat)
  deriving Repr, DecidableEq

/-- Line 91, `data[reg_addr_range].copy_from_slice(&value)`: panics
(`none`) when the range is out of the buffer's bounds (slice indexing) or
when the value's length differs from the range's length
(`copy_from_slice`). -/
def applyWrite (data : List Nat) (w : (Nat × Nat) × List Nat) :
    Option (List Nat) :=
  if w.1.1 ≤ w.1.2 ∧ w.1.2 ≤ data.length then
    if w.2.length = w.1.2 - w.1.1 then
      some (data.take w.1.1 ++ w.2 ++ data.drop w.1.2)
    else none
  else none

/-- The drain loop `while let Ok(..) = rx.try_recv()` (lines 90–92):
apply every currently pending write, in submission order. `none` is a
panic of the cyclic thread. -/
def drainWrites (data : List Nat) :
    List ((Nat × Nat) × List Nat) → Option (List Nat)
  | [] => some data
  | w :: ws => (applyWrite data w).bind (fun d => drainWrites d ws)

/-- One iteration of the cyclic loop body (lines 70–112), in source
order: exchange with the bus (`recv`), publish the snapshot, set the
cycle flag, drain and apply pending writes onto the exchange buffer,
then (if not yet ready) fire the readiness gate when the link is up and
`al_states == 8`. `none` is a panic of the cyclic thread. -/
def cycleStep (recv : List Nat → List Nat) (linkUp : Bool) (alStates : Nat)
    (s : LoopState) : Option LoopState :=
  let data := recv s.buffer
  match drainWrites data s.pending with
  | none => none
  | some buffer =>
    let fire := !s.isReady && linkUp && (alStates == 8)
    some { buffer := buffer
           snapshot := some data
           cycleFlag := true
           readyFlag := if fire then true else s.readyFlag
           isReady := if fire then true else s.isReady
           pending := [] }

/-- Run several iterations of the cyclic loop; each element of `ps`
supplies that iteration's bus exchange and bus state. -/
def runSteps : List ((List Nat → List Nat) × Bool × Nat) → LoopState →
    Option LoopState
  | [], s => some s
  | p :: ps, s => (cycleStep p.1 p.2.1 p.2.2 s).bind (runSteps ps)

/-- The entry of `wait_for_ready` (lines 193–204): it takes the ready
lock and SETS THE FLAG TO FALSE (`*ready = false`, line 198) before
blocking until the flag is true again. This models that clearing step. -/
def waitForReadyReset (s : LoopState) : LoopState :=
  { s with readyFlag := false }

/-- Submitting a write appends it to the channel (FIFO). -/
def submitWrite (s : LoopState) (w : (Nat × Nat) × List Nat) : LoopState :=
  { s with pending := s.pending ++ [w] }

/-! ## `init_master` (lines 247–350)

The external `ethercat` driver is an oracle (`BusModel`) giving the
outcome of each driver call.  The source distinguishes two failure
modes: calls followed by `?` propagate an `io::Error` out of
`init_master` (`Res.err`), while calls followed by `.unwrap()` panic
(`Res.panic`). -/

/-- Outcome of a fallible construction: a value, a propagated
`io::Error` (`?`), or a panic (`.unwrap()` on a failed call). -/
inductive Res (α : Type) where
  | ok : α → Res α
  | err : Res α
  | panic : Res α
  deriving Repr, DecidableEq

/-- Oracle for the driver calls made by `init_master` and `open`.
`none` / `false` means the corresponding call fails.
`registerEntry i k` is the offset returned by the `k`-th
`register_pdo_entry` call made for slave `i` (the driver assigns
offsets per registration call). -/
structure BusModel where
  openOk : Bool
  reserveOk : Bool
  createDomain : Option Nat
  slaveCount : Option Nat
  slaveInfo : Nat → Option (String × Nat)
  syncInfo : Nat → Nat → Option Nat
  pdoInfo : Nat → Nat → Option (Nat × Nat)
  pdoEntry : Nat → Nat → Nat → Option (Nat × Nat × String)
  configureSlaveOk : Nat → Bool
  configSmPdosOk : Nat → Nat → Bool
  registerEntry : Nat → Nat → Option (Nat × Nat)
  configInfoPos : Nat → Option (Option Nat)
  activateOk : Bool

/-- One entry of a `PdoCfg` as built at lines 290–295:
`(entry_idx, bit_len as u8, name)` — the reported bit length is
truncated to `u8` (`% 256`). -/
structure EntryCfg where
  entryIdx : Nat
  bitLen : Nat
  name : String
  deriving Repr, DecidableEq

/-- The `PdoEntryInfo` construction (lines 290–295): the driver's
reported `(entry_idx, bit_len, name)` with `bit_len as u8`. -/
def mkEntry (raw : Nat × Nat × String) : EntryCfg :=
  { entryIdx := raw.1, bitLen := raw.2.1 % 256, name := raw.2.2 }

/-- The inner entry loop (lines 287–296): `get_pdo_entry(..).unwrap()`
for `e` in `0..entry_count`. `none` is a panic. -/
def buildEntries (m : BusModel) (i j ecount : Nat) : Option (List EntryCfg) :=
  (List.range ecount).mapM (fun e => (m.pdoEntry i j e).map mkEntry)

/-- The sync-manager loop (lines 274–303): for each `j`,
`get_sync(..).unwrap()` (its `pdo_count` only feeds a log/error message),
`get_pdo(.., PdoPos 0).unwrap()`, and the entry loop. Produces the
`Vec<PdoCfg>`; `none` is a panic. -/
def buildPdos (m : BusModel) (i scount : Nat) :
    Option (List (Nat × List EntryCfg)) :=
  (List.range scount).mapM (fun j => do
    let _ ← m.syncInfo i j
    let (pidx, ecount) ← m.pdoInfo i j
    let entries ← buildEntries m i j ecount
    pure (pidx, entries))

/-- The `entry_offsets` update (lines 323–331): push the record onto the
name's vector if the name is present, else insert a fresh singleton. -/
def pushRec (po : PdoOffsets) (name : String) (r : OffsetRec) : PdoOffsets :=
  match List.lookup name po with
  | some _ => po.map (fun nr => if nr.1 = name then (nr.1, nr.2 ++ [r]) else nr)
  | none => po ++ [(name, [r])]

/-- Register one PDO's entries (lines 320–332): each
`register_pdo_entry(..)?` either yields an offset or propagates an
error. `k` counts registration calls already made for this slave. -/
def registerEntries (m : BusModel) (i : Nat) :
    List EntryCfg → Nat → PdoOffsets → Res (PdoOffsets × Nat)
  | [], k, po => .ok (po, k)
  | e :: es, k, po =>
    match m.registerEntry i k with
    | none => .err
    | some off =>
      registerEntries m i es (k + 1)
        (pushRec po e.name
          { entryIdx := e.entryIdx, bitLen := e.bitLen,
            byteOff := off.1, bitOff := off.2 })

/-- The PDO configuration loop (lines 309–334): for each PDO (by
`pdo_idx`), `config_sm_pdos(..)?` then register its entries. -/
def registerPdos (m : BusModel) (i : Nat) :
    List (Nat × List EntryCfg) → Nat → Nat → PdoOffsets →
    Res (PdoOffsets × Nat)
  | [], _, k, po => .ok (po, k)
  | p :: ps, pdoIdx, k, po =>
    if m.configSmPdosOk i pdoIdx then
      match registerEntries m i p.2 k po with
      | .err => .err
      | .panic => .panic
      | .ok (po', k') => registerPdos m i ps (pdoIdx + 1) k' po'
    else .err

/-- Process one slave (the body of the `for i in 0..slave_num` loop,
lines 263–347): enumerate (panicking calls), `configure_slave(..)?`,
configure and register PDOs, then `get_config_info(..)?` and the
explicit `Err` when the config reports no slave position. -/
def processSlave (m : BusModel) (i : Nat) : Res (String × PdoOffsets) :=
  match m.slaveInfo i with
  | none => .panic
  | some (name, scount) =>
    match buildPdos m i scount with
    | none => .panic
    | some pdos =>
      if m.configureSlaveOk i then
        match registerPdos m i pdos 0 0 [] with
        | .err => .err
        | .panic => .panic
        | .ok (po, _) =>
          match m.configInfoPos i with
          | none => .err
          | some none => .err
          | some (some _) => .ok (name, po)
      else .err

/-- The slave loop of `init_master`, over the listed positions.
(The source fills two `HashMap`s; insertion order does not affect
their lookup semantics for distinct keys.) -/
def initSlavesFrom (m : BusModel) :
    List Nat → Res (SlaveOffsets × SlaveNames)
  | [] => .ok ([], [])
  | i :: rest =>
    match processSlave m i with
    | .err => .err
    | .panic => .panic
    | .ok (name, po) =>
      match initSlavesFrom m rest with
      | .err => .err
      | .panic => .panic
      | .ok (offs, names) => .ok ((i, po) :: offs, (name, i) :: names)

/-- Source `init_master` (lines 247–350): `Master::open(..)?`, `reserve()?`,
`create_domain()?`, `get_info().unwrap().slave_count`, then the slave
loop. Returns the domain index and the two tables. -/
def initMaster (m : BusModel) : Res (Nat × SlaveOffsets × SlaveNames) :=
  if m.openOk then
    if m.reserveOk then
      match m.createDomain with
      | none => .err
      | some d =>
        match m.slaveCount with
        | none => .panic
        | some n =>
          match initSlavesFrom m (List.range n) with
          | .err => .err
          | .panic => .panic
          | .ok (offs, names) => .ok (d, offs, names)
    else .err
  else .err

/-- Source `EtherCatController::open` (lines 33–122): `init_master(..)?` then
`master.activate()?`; on success the controller starts with no snapshot,
both gates unfired and an empty write queue. -/
def openController (m : BusModel) :
    Res (SlaveOffsets × SlaveNames × LoopState) :=
  match initMaster m with
  | .err => .err
  | .panic => .panic
  | .ok (_, offs, names) =>
    if m.activateOk then
      .ok (offs, names,
        { buffer := [], snapshot := none, cycleFlag := false,
          readyFlag := false, isReady := false, pending := [] })
    else .err

/-- A one-slave bus: one sync manager, one PDO with a single entry named
"x" whose reported bit length is the parameter `L`, registered at byte
offset 3. Used to trace a reported bit length through enumeration into
the offset table. -/
def busOne (L : Nat) : BusModel :=
  { openOk := true
    reserveOk := true
    createDomain := some 0
    slaveCount := some 1
    slaveInfo := fun _ => some ("dev", 1)
    syncInfo := fun _ _ => some 1
    pdoInfo := fun _ _ => some (0, 1)
    pdoEntry := fun _ _ _ => some (5, L, "x")
    configureSlaveOk := fun _ => true
    configSmPdosOk := fun _ _ => true
    registerEntry := fun _ _ => some (3, 0)
    configInfoPos := fun _ => some (some 0)
    activateOk := true }

/-- The one-slave bus whose `get_info` call fails: every `?`-propagated
call succeeds, but the enumeration `unwrap` panics. -/
def busInfoFails : BusModel :=
  { busOne 16 with slaveCount := none }

/-- The bus whose `Master::open` call fails. -/
def busOpenFails : BusModel :=
  { busOne 16 with openOk := false }

/-- The one-slave bus whose `get_slave_info` call fails (unwrap). -/
def busSlaveInfoFails : BusModel :=
  { busOne 16 with slaveInfo := fun _ => none }

/-- The one-slave bus whose `get_sync` call fails (unwrap). -/
def busSyncFails : BusModel :=
  { busOne 16 with syncInfo := fun _ _ => none }

/-- The one-slave bus whose `configure_slave` call fails (`?`). -/
def busCfgFails : BusModel :=
  { busOne 16 with configureSlaveOk := fun _ => false }

/-- The one-slave bus whose `config_sm_pdos` call fails (`?`). -/
def busSmCfgFails : BusModel :=
  { busOne 16 with configSmPdosOk := fun _ _ => false }

/-- The one-slave bus whose `register_pdo_entry` call fails (`?`). -/
def busEntryRegFails : BusModel :=
  { busOne 16 with registerEntry := fun _ _ => none }

/-- The one-slave bus whose config reports no slave position (the bind
check at lines 340–345 fails). -/
def busBindFails : BusModel :=
  { busOne 16 with configInfoPos := fun _ => some none }

/-! ## Helper lemmas -/

/-- A key that occurs among an association list's first components has a
`lookup` result. -/
lemma lookup_isSome_of_mem_keys {β : Type} :
    ∀ (l : List (Nat × β)) (i : Nat), i ∈ l.map Prod.fst →
      (List.lookup i l).isSome = true
  | [], _, hi => absurd hi (by simp)
  | (k, b) :: t, i, hi => by
    by_cases hik : i = k
    · simp [List.lookup, hik]
    · have hi' : i = k ∨ ∃ x, (i, x) ∈ t := by simpa using hi
      rcases hi' with h | ⟨x, hx⟩
      · exact absurd h hik
      · have hmem : i ∈ t.map Prod.fst := List.mem_map.mpr ⟨(i, x), hx, rfl⟩
        have hne : (i == k) = false := beq_eq_false_iff_ne.mpr hik
        simp [List.lookup, hne, lookup_isSome_of_mem_keys t i hmem]

/-- A successful slave loop records an offsets entry for exactly the
processed slave positions, in order. -/
lemma initSlavesFrom_keys (m : BusModel) :
    ∀ (is : List Nat) (offs : SlaveOffsets) (names : SlaveNames),
      initSlavesFrom m is = .ok (offs, names) →
      offs.map Prod.fst = is
  | [], offs, names, h => by
    simp only [initSlavesFrom, Res.ok.injEq, Prod.mk.injEq] at h
    rw [← h.1]
    rfl
  | i :: rest, offs, names, h => by
    simp only [initSlavesFrom] at h
    cases hp : processSlave m i with
    | err => rw [hp] at h; exact absurd h (by simp)
    | panic => rw [hp] at h; exact absurd h (by simp)
    | ok v =>
      obtain ⟨name, po⟩ := v
      rw [hp] at h
      cases hr : initSlavesFrom m rest with
      | err => rw [hr] at h; exact absurd h (by simp)
      | panic => rw [hr] at h; exact absurd h (by simp)
      | ok w =>
        obtain ⟨roffs, rnames⟩ := w
        rw [hr] at h
        simp only [Res.ok.injEq, Prod.mk.injEq] at h
        rw [← h.1]
        simp [initSlavesFrom_keys m rest roffs rnames hr]

/-- A successful `initMaster` is complete: the slave count was read and
the offset table covers every enumerated device position. -/
lemma initMaster_ok_complete (m : BusModel) (d : Nat)
    (offs : SlaveOffsets) (names : SlaveNames)
    (h : initMaster m = .ok (d, offs, names)) :
    ∃ n, m.slaveCount = some n
      ∧ offs.map Prod.fst = List.range n
      ∧ ∀ i, i < n → (List.lookup i offs).isSome = true := by
  simp only [initMaster] at h
  cases ho : m.openOk with
  | false =>
    simp only [ho, if_false, Bool.false_eq_true] at h
    exact Res.noConfusion h
  | true =>
    simp only [ho, if_true] at h
    cases hrv : m.reserveOk with
    | false =>
      simp only [hrv, if_false, Bool.false_eq_true] at h
      exact Res.noConfusion h
    | true =>
      simp only [hrv, if_true] at h
      cases hcd : m.createDomain with
      | none =>
        simp only [hcd] at h
        exact Res.noConfusion h
      | some dd =>
        simp only [hcd] at h
        cases hsc : m.slaveCount with
        | none =>
          simp only [hsc] at h
          exact Res.noConfusion h
        | some n =>
          simp only [hsc] at h
          cases hloop : initSlavesFrom m (List.range n) with
          | err =>
            simp only [hloop] at h
            exact Res.noConfusion h
          | panic =>
            simp only [hloop] at h
            exact Res.noConfusion h
          | ok w =>
            obtain ⟨offs2, names2⟩ := w
            simp only [hloop, Res.ok.injEq, Prod.mk.injEq] at h
            have hkeys : offs.map Prod.fst = List.range n := by
              rw [← h.2.1]
              exact initSlavesFrom_keys m (List.range n) offs2 names2 hloop
            refine ⟨n, rfl, hkeys, fun i hi => ?_⟩
            exact lookup_isSome_of_mem_keys offs i
              (by rw [hkeys]; exact List.mem_range.mpr hi)

/-- An `Option`-valued `mapM` fails as soon as any element fails. -/
lemma mapM_none_of_mem {α β : Type} (f : α → Option β) :
    ∀ (l : List α) (x : α), x ∈ l → f x = none → l.mapM f = none
  | [], x, hx, _ => absurd hx (by simp)
  | y :: t, x, hx, hfx => by
    rw [List.mapM_cons]
    rcases List.mem_cons.mp hx with h | h
    · subst h
      rw [hfx]
      rfl
    · cases hfy : f y with
      | none => rfl
      | some b =>
        rw [mapM_none_of_mem f t x h hfx]
        exact rfl

/-- Entry registration (`register_pdo_entry(..)?`) either succeeds or
propagates an error; it never panics. -/
lemma registerEntries_ne_panic (m : BusModel) (i : Nat) :
    ∀ (es : List EntryCfg) (k : Nat) (po : PdoOffsets),
      registerEntries m i es k po ≠ .panic
  | [], _, _ => fun h => Res.noConfusion h
  | e :: es, k, po => by
    simp only [registerEntries]
    cases hr : m.registerEntry i k with
    | none => exact fun h => Res.noConfusion h
    | some off => exact registerEntries_ne_panic m i es (k + 1) _

/-- The PDO configuration/registration loop (`config_sm_pdos(..)?` and
`register_pdo_entry(..)?`) either succeeds or propagates an error; it
never panics. -/
lemma registerPdos_ne_panic (m : BusModel) (i : Nat) :
    ∀ (ps : List (Nat × List EntryCfg)) (pdoIdx k : Nat) (po : PdoOffsets),
      registerPdos m i ps pdoIdx k po ≠ .panic
  | [], _, _, _ => fun h => Res.noConfusion h
  | p :: ps, pdoIdx, k, po => by
    intro h
    simp only [registerPdos] at h
    split at h
    · split at h
      · exact Res.noConfusion h
      · rename_i hre
        exact registerEntries_ne_panic m i p.2 k po hre
      · rename_i po' k' hre
        exact registerPdos_ne_panic m i ps (pdoIdx + 1) k' po' h
    · exact Res.noConfusion h

/-- If no slave panics and some listed slave errs, the slave loop errs. -/
lemma initSlavesFrom_err_of_mem (m : BusModel) :
    ∀ (is : List Nat),
      (∀ i ∈ is, processSlave m i ≠ .panic) →
      (∃ i ∈ is, processSlave m i = .err) →
      initSlavesFrom m is = .err
  | [], _, hex => by
    obtain ⟨i, hi, _⟩ := hex
    exact absurd hi (by simp)
  | j :: rest, hnp, hex => by
    cases hp : processSlave m j with
    | panic => exact absurd hp (hnp j (by simp))
    | err => simp [initSlavesFrom, hp]
    | ok v =>
      obtain ⟨name, po⟩ := v
      have hrest : ∃ i ∈ rest, processSlave m i = .err := by
        obtain ⟨i, hi, hie⟩ := hex
        rcases List.mem_cons.mp hi with h | h
        · subst h
          rw [hp] at hie
          exact absurd hie (by simp)
        · exact ⟨i, h, hie⟩
      have ih := initSlavesFrom_err_of_mem m rest
        (fun i hi => hnp i (List.mem_cons_of_mem j hi)) hrest
      simp [initSlavesFrom, hp, ih]

/-- If no slave errs and some listed slave panics, the slave loop
panics. -/
lemma initSlavesFrom_panic_of_mem (m : BusModel) :
    ∀ (is : List Nat),
      (∀ i ∈ is, processSlave m i ≠ .err) →
      (∃ i ∈ is, processSlave m i = .panic) →
      initSlavesFrom m is = .panic
  | [], _, hex => by
    obtain ⟨i, hi, _⟩ := hex
    exact absurd hi (by simp)
  | j :: rest, hne, hex => by
    cases hp : processSlave m j with
    | err => exact absurd hp (hne j (by simp))
    | panic => simp [initSlavesFrom, hp]
    | ok v =>
      obtain ⟨name, po⟩ := v
      have hrest : ∃ i ∈ rest, processSlave m i = .panic := by
        obtain ⟨i, hi, hie⟩ := hex
        rcases List.mem_cons.mp hi with h | h
        · subst h
          rw [hp] at hie
          exact absurd hie (by simp)
        · exact ⟨i, h, hie⟩
      have ih := initSlavesFrom_panic_of_mem m rest
        (fun i hi => hne i (List.mem_cons_of_mem j hi)) hrest
      simp [initSlavesFrom, hp, ih]

/-- A `zip` ignores the part of the right list beyond the left list's
length. -/
lemma zip_take_len {α β : Type} (l1 : List α) (l2 : List β) :
    l1.zip l2 = l1.zip (l2.take l1.length) := by
  induction l1 generalizing l2 with
  | nil => simp
  | cons a t ih =>
    cases l2 with
    | nil => simp
    | cons b t2 => simp [ih t2]

/-- With no snapshot, collecting the per-range reads of a nonempty range
list yields `none` (the `collect::<Option<_>>` short-circuits). -/
lemma collectReads_no_snapshot (rs : List (Nat × Nat)) (h : rs ≠ []) :
    collectReads none rs = .ok none := by
  cases rs with
  | nil => exact absurd rfl h
  | cons r t => simp [collectReads, readRange]

/-- With a snapshot and all ranges in bounds, collecting the per-range
reads yields every range's bytes, in order. -/
lemma collectReads_snapshot (data : List Nat) (rs : List (Nat × Nat))
    (h : ∀ r ∈ rs, r.1 ≤ r.2 ∧ r.2 ≤ data.length) :
    collectReads (some data) rs
      = .ok (some (rs.map (fun r => (data.drop r.1).take (r.2 - r.1)))) := by
  induction rs with
  | nil => simp [collectReads]
  | cons r t ih =>
    have hr := h r (by simp)
    have ht : ∀ x ∈ t, x.1 ≤ x.2 ∧ x.2 ≤ data.length :=
      fun x hx => h x (by simp [hx])
    simp [collectReads, readRange, rustSlice, hr.1, hr.2, ih ht]

/-- A `zip` ignores the part of the left list beyond the right list's
length. -/
lemma zip_take_len_left {α β : Type} (l1 : List α) (l2 : List β) :
    l1.zip l2 = (l1.take l2.length).zip l2 := by
  induction l1 generalizing l2 with
  | nil => simp
  | cons a t ih =>
    cases l2 with
    | nil => simp
    | cons b t2 => simp [ih t2]

/-- The bytes written by a successful `copy_from_slice` read back
exactly. -/
lemma slice_of_write (data v : List Nat) (s : Nat)
    (h : s + v.length ≤ data.length) :
    ((data.take s ++ v ++ data.drop (s + v.length)).drop s).take v.length
      = v := by
  have hts : (data.take s).length = s := by
    simp [List.length_take]
    omega
  have key : ∀ (A B : List Nat), A.length = s → (A ++ B).drop s = B := by
    intro A B hA
    rw [← hA]
    exact List.drop_left A B
  rw [List.append_assoc, key _ _ hts]
  exact List.take_left v _

/-- A successful `applyWrite` unfolds to the take/insert/drop splice. -/
lemma applyWrite_eq (data v : List Nat) (s e : Nat)
    (hv : v.length = e - s) (hse : s ≤ e) (he : e ≤ data.length) :
    applyWrite data ((s, e), v) = some (data.take s ++ v ++ data.drop e) := by
  simp [applyWrite, hse, he, hv]

/-- A successful `applyWrite` preserves the buffer's length. -/
lemma applyWrite_length (data out : List Nat) (w : (Nat × Nat) × List Nat)
    (h : applyWrite data w = some out) : out.length = data.length := by
  unfold applyWrite at h
  split at h
  · split at h
    · rename_i hb hl
      simp only [Option.some.injEq] at h
      subst h
      simp [List.length_take, List.length_drop]
      omega
    · exact absurd h (by simp)
  · exact absurd h (by simp)

/-- A successful `applyWrite` leaves every byte outside the written
range unchanged. -/
lemma applyWrite_outside (data out : List Nat) (w : (Nat × Nat) × List Nat)
    (h : applyWrite data w = some out) (p : Nat)
    (hp : p < w.1.1 ∨ w.1.2 ≤ p) : out[p]? = data[p]? := by
  unfold applyWrite at h
  split at h
  · split at h
    · rename_i hb hl
      simp only [Option.some.injEq] at h
      subst h
      have hts : (data.take w.1.1).length = w.1.1 := by
        simp [List.length_take]; omega
      rcases hp with hp | hp
      · rw [List.append_assoc,
          List.getElem?_append_left (by rw [hts]; exact hp),
          List.getElem?_take_of_lt hp]
      · have hlen2 : (data.take w.1.1 ++ w.2).length = w.1.2 := by
          simp [List.length_append, hts, hl]; omega
        rw [List.getElem?_append_right (by rw [hlen2]; exact hp), hlen2,
          List.getElem?_drop]
        congr 1
        omega
    · exact absurd h (by simp)
  · exact absurd h (by simp)

/-- Draining a list of writes leaves every byte outside all written
ranges unchanged. -/
lemma drainWrites_outside :
    ∀ (ws : List ((Nat × Nat) × List Nat)) (data out : List Nat) (p : Nat),
      drainWrites data ws = some out →
      (∀ w ∈ ws, p < w.1.1 ∨ w.1.2 ≤ p) → out[p]? = data[p]?
  | [], data, out, p, h, _ => by
    simp [drainWrites] at h
    rw [h]
  | w :: ws, data, out, p, h, hall => by
    simp only [drainWrites] at h
    cases ha : applyWrite data w with
    | none => rw [ha] at h; exact absurd h (by simp)
    | some d =>
      rw [ha] at h
      rw [drainWrites_outside ws d out p h
        (fun x hx => hall x (List.mem_cons_of_mem w hx)),
        applyWrite_outside data d w ha p (hall w (List.mem_cons_self w ws))]

/-- A write whose value length differs from its range's length makes
`applyWrite` panic on any buffer. -/
lemma applyWrite_mismatch_none (s e : Nat) (v : List Nat)
    (hmm : v.length ≠ e - s) (data : List Nat) :
    applyWrite data ((s, e), v) = none := by
  simp [applyWrite, hmm]

/-- If any pending write panics on every buffer, the whole drain
panics. -/
lemma drainWrites_mem_none :
    ∀ (ws : List ((Nat × Nat) × List Nat)) (data : List Nat)
      (w : (Nat × Nat) × List Nat), w ∈ ws →
      (∀ d : List Nat, applyWrite d w = none) → drainWrites data ws = none
  | [], _, _, hw, _ => absurd hw (by simp)
  | x :: ws, data, w, hw, hnone => by
    rcases List.mem_cons.mp hw with hw | hw
    · subst hw
      simp [drainWrites, hnone data]
    · simp only [drainWrites]
      cases ha : applyWrite data x with
      | none => rfl
      | some d => exact drainWrites_mem_none ws d w hw hnone

/-- A cycle iteration never re-fires or clears the gate once the
loop-local `is_ready` is set: the readiness flag is left exactly as it
was. -/
lemma cycleStep_ready_invariant (recv : List Nat → List Nat) (l : Bool)
    (a : Nat) (s s' : LoopState) (h : cycleStep recv l a s = some s')
    (hr : s.isReady = true) :
    s'.isReady = true ∧ s'.readyFlag = s.readyFlag := by
  simp only [cycleStep] at h
  cases hd : drainWrites (recv s.buffer) s.pending with
  | none => rw [hd] at h; exact absurd h (by simp)
  | some buf =>
    rw [hd] at h
    simp only [Option.some.injEq] at h
    subst h
    simp [hr]

/-- Once `is_ready` is set in the loop, no sequence of further cycles
ever sets the ready flag again: if it is false it stays false. -/
lemma runSteps_ready_stuck :
    ∀ (ps : List ((List Nat → List Nat) × Bool × Nat)) (s s' : LoopState),
      runSteps ps s = some s' → s.isReady = true → s.readyFlag = false →
      s'.readyFlag = false ∧ s'.isReady = true
  | [], s, s', h, hr, hf => by
    simp [runSteps] at h
    rw [← h]
    exact ⟨hf, hr⟩
  | p :: ps, s, s', h, hr, hf => by
    simp only [runSteps] at h
    cases hc : cycleStep p.1 p.2.1 p.2.2 s with
    | none => rw [hc] at h; exact absurd h (by simp)
    | some s1 =>
      rw [hc] at h
      have hinv := cycleStep_ready_invariant p.1 p.2.1 p.2.2 s s1 hc hr
      exact runSteps_ready_stuck ps s1 s' h hinv.1 (hinv.2.trans hf)

/-! ## Claims -/

/-- C1: the claim states that `get_pdo_register` with an unknown device
position, unknown register name or out-of-range index returns `None`.
It does not: `get_reg_addr_range` indexes two `HashMap`s and a `Vec`
with the panicking `[]` operator, so such a read panics. Concretely,
with an empty offset table, reading any register does not return
`Ok(None)` (it panics). -/
theorem C1_counterexample :
    get_pdo_register ([] : SlaveOffsets) (some [0]) 0 "x" 0
        ≠ Except.ok none
      ∧ get_pdo_register ([] : SlaveOffsets) (some [0]) 0 "x" 0
        = Except.error () := by
  refine ⟨fun h => Except.noConfusion h, rfl⟩

/-- C1 (amended): whenever the `(device, name, index)` triple fails to
resolve (unknown device, unknown register name, or index out of range —
i.e. `get_reg_addr_range` panics), `get_pdo_register` panics rather than
returning `None`; `None` is reserved for a missing snapshot. -/
theorem C1_unknown_lookup_panics (offsets : SlaveOffsets)
    (snapshot : Option (List Nat)) (slave_id : Nat) (register : String)
    (index : Nat)
    (h : get_reg_addr_range offsets slave_id register index = none) :
    get_pdo_register offsets snapshot slave_id register index
      = .error () := by
  simp [get_pdo_register, h]

/-- Witness for C1's amended theorem at a concrete input. -/
theorem C1_unknown_lookup_panics_witness :
    get_pdo_register ([] : SlaveOffsets) (some [0]) 0 "x" 0
      = .error () :=
  C1_unknown_lookup_panics [] (some [0]) 0 "x" 0 rfl

/-- C4: for every offset record, the resolved byte range is
`byte_offset .. byte_offset + bit_length / 8` (truncating division); for
a record of bit length below 8 the range is empty, and once a snapshot
exists (covering the record's byte offset) `get_pdo_register` returns
the empty byte sequence, not a failure. -/
theorem C4_subbyte_reads_empty (offsets : SlaveOffsets) (slave_id : Nat)
    (register : String) (index : Nat) (po : PdoOffsets)
    (recs : List OffsetRec) (r : OffsetRec)
    (h1 : List.lookup slave_id offsets = some po)
    (h2 : List.lookup register po = some recs)
    (h3 : recs[index]? = some r) :
    get_reg_addr_range offsets slave_id register index
      = some (r.byteOff, r.byteOff + r.bitLen / 8)
    ∧ (r.bitLen < 8 →
        r.byteOff + r.bitLen / 8 = r.byteOff
        ∧ ∀ data : List Nat, r.byteOff ≤ data.length →
            get_pdo_register offsets (some data) slave_id register index
              = .ok (some [])) := by
  have hrange : get_reg_addr_range offsets slave_id register index
      = some (r.byteOff, r.byteOff + r.bitLen / 8) := by
    simp [get_reg_addr_range, h1, h2, h3]
  refine ⟨hrange, fun hb => ?_⟩
  have hd : r.bitLen / 8 = 0 := Nat.div_eq_of_lt hb
  refine ⟨by simp [hd], fun data hlen => ?_⟩
  simp [get_pdo_register, hrange, rustSlice, hd, hlen]

/-- Witness for C4 at a concrete input: a 4-bit entry at byte 1 of a
2-byte image reads back as `[]`. -/
theorem C4_subbyte_reads_empty_witness :
    get_reg_addr_range [(0, [("y", [⟨2, 4, 1, 0⟩])])] 0 "y" 0
      = some (1, 1)
    ∧ get_pdo_register [(0, [("y", [⟨2, 4, 1, 0⟩])])] (some [7, 8]) 0 "y" 0
      = .ok (some []) := by
  have h := C4_subbyte_reads_empty [(0, [("y", [⟨2, 4, 1, 0⟩])])] 0 "y" 0
    [("y", [⟨2, 4, 1, 0⟩])] [⟨2, 4, 1, 0⟩] ⟨2, 4, 1, 0⟩ rfl rfl rfl
  exact ⟨h.1, (h.2 (by decide)).2 [7, 8] (by decide)⟩

/-- C5: a `set_pdo_registers` call with more values than the name's
offset records enqueues exactly one write per record, paired positionally
with the records in order, drops the excess values, and raises only the
warning flag (the call does not error or panic). -/
theorem C5_excess_values_dropped (offsets : SlaveOffsets) (slave_id : Nat)
    (register : String) (rs : List (Nat × Nat)) (values : List (List Nat))
    (h1 : get_reg_addr_ranges offsets slave_id register = some rs)
    (h2 : rs.length < values.length) :
    set_pdo_registers offsets slave_id register values
      = some (true, rs.zip values)
    ∧ (rs.zip values).length = rs.length
    ∧ (rs.zip values).map Prod.fst = rs
    ∧ (rs.zip values).map Prod.snd = values.take rs.length := by
  refine ⟨?_, ?_, ?_, ?_⟩
  · have hne : values.length ≠ rs.length := by omega
    simp [set_pdo_registers, h1, hne]
  · rw [List.length_zip]; omega
  · exact List.map_fst_zip rs values (le_of_lt h2)
  · rw [zip_take_len]
    exact List.map_snd_zip rs (values.take rs.length)
      (by simp [List.length_take])

/-- Witness for C5: three values against two records enqueue exactly the
two positional writes. -/
theorem C5_excess_values_dropped_witness :
    set_pdo_registers [(0, [("x", [⟨1, 16, 0, 0⟩, ⟨1, 16, 2, 0⟩])])]
        0 "x" [[1, 2], [3, 4], [5, 6]]
      = some (true, [((0, 2), [1, 2]), ((2, 4), [3, 4])]) := by
  have h := C5_excess_values_dropped
    [(0, [("x", [⟨1, 16, 0, 0⟩, ⟨1, 16, 2, 0⟩])])] 0 "x"
    [(0, 2), (2, 4)] [[1, 2], [3, 4], [5, 6]] rfl (by decide)
  exact h.1

/-- C6: once the `(device, name, index)` triple resolves, a read returns
`None` exactly when no snapshot exists, and a copy of the resolved byte
range of the snapshot otherwise; `get_pdo_registers` returns `None`
whenever any individual read would (no snapshot yet), and otherwise the
list of every index's bytes in order. -/
theorem C6_reads_follow_snapshot (offsets : SlaveOffsets) (slave_id : Nat)
    (register : String) (index : Nat) (po : PdoOffsets)
    (recs : List OffsetRec) (r : OffsetRec) (rs : List (Nat × Nat))
    (h1 : List.lookup slave_id offsets = some po)
    (h2 : List.lookup register po = some recs)
    (h3 : recs[index]? = some r)
    (h4 : get_reg_addr_ranges offsets slave_id register = some rs) :
    get_pdo_register offsets none slave_id register index = .ok none
    ∧ (∀ data : List Nat, r.byteOff + r.bitLen / 8 ≤ data.length →
        get_pdo_register offsets (some data) slave_id register index
          = .ok (some ((data.drop r.byteOff).take (r.bitLen / 8))))
    ∧ (rs ≠ [] → get_pdo_registers offsets none slave_id register
          = .ok none)
    ∧ (∀ data : List Nat, (∀ q ∈ rs, q.1 ≤ q.2 ∧ q.2 ≤ data.length) →
        get_pdo_registers offsets (some data) slave_id register
          = .ok (some (rs.map (fun q =>
              (data.drop q.1).take (q.2 - q.1))))) := by
  have hrange : get_reg_addr_range offsets slave_id register index
      = some (r.byteOff, r.byteOff + r.bitLen / 8) := by
    simp [get_reg_addr_range, h1, h2, h3]
  refine ⟨?_, fun data hlen => ?_, fun hne => ?_, fun data hall => ?_⟩
  · simp [get_pdo_register, hrange]
  · simp [get_pdo_register, hrange, rustSlice, Nat.le_add_right, hlen]
  · simp [get_pdo_registers, h4, collectReads_no_snapshot rs hne]
  · simp [get_pdo_registers, h4, collectReads_snapshot data rs hall]

/-- Witness for C6 at a concrete input. -/
theorem C6_reads_follow_snapshot_witness :
    get_pdo_register [(0, [("x", [⟨1, 16, 0, 0⟩, ⟨1, 16, 2, 0⟩])])]
        none 0 "x" 0 = .ok none
    ∧ get_pdo_register [(0, [("x", [⟨1, 16, 0, 0⟩, ⟨1, 16, 2, 0⟩])])]
        (some [7, 8, 9, 10]) 0 "x" 0 = .ok (some [7, 8])
    ∧ get_pdo_registers [(0, [("x", [⟨1, 16, 0, 0⟩, ⟨1, 16, 2, 0⟩])])]
        none 0 "x" = .ok none
    ∧ get_pdo_registers [(0, [("x", [⟨1, 16, 0, 0⟩, ⟨1, 16, 2, 0⟩])])]
        (some [7, 8, 9, 10]) 0 "x" = .ok (some [[7, 8], [9, 10]]) := by
  have h := C6_reads_follow_snapshot
    [(0, [("x", [⟨1, 16, 0, 0⟩, ⟨1, 16, 2, 0⟩])])] 0 "x" 0
    [("x", [⟨1, 16, 0, 0⟩, ⟨1, 16, 2, 0⟩])]
    [⟨1, 16, 0, 0⟩, ⟨1, 16, 2, 0⟩] ⟨1, 16, 0, 0⟩
    [(0, 2), (2, 4)] rfl rfl rfl rfl
  refine ⟨h.1, ?_, h.2.2.1 (by decide), ?_⟩
  · have := h.2.1 [7, 8, 9, 10] (by decide)
    simpa using this
  · have := h.2.2.2 [7, 8, 9, 10] (by decide)
    simpa using this

/-- A cycle whose drain succeeds produces exactly this state: the
snapshot is the post-exchange, pre-drain buffer. -/
lemma cycleStep_run (recv : List Nat → List Nat) (l : Bool) (a : Nat)
    (st : LoopState) (buf : List Nat)
    (h : drainWrites (recv st.buffer) st.pending = some buf) :
    cycleStep recv l a st = some
      { buffer := buf
        snapshot := some (recv st.buffer)
        cycleFlag := true
        readyFlag := if !st.isReady && l && (a == 8) then true
                     else st.readyFlag
        isReady := if !st.isReady && l && (a == 8) then true
                   else st.isReady
        pending := [] } := by
  simp only [cycleStep, h]

/-- C2: the snapshot a cycle publishes is the exchange buffer as it
stood before that cycle's pending writes were applied, so a write
submitted in cycle N is absent from cycle N's snapshot; once applied it
reads back, from the snapshot published by cycle N+1, as exactly the
submitted bytes (provided the intervening bus exchange leaves the
written range alone, as it does for output ranges). -/
theorem C2_one_cycle_write_latency
    (recv1 recv2 : List Nat → List Nat) (l1 l2 : Bool) (a1 a2 : Nat)
    (st : LoopState) (s len : Nat) (v : List Nat)
    (hpend : st.pending = [])
    (hv : v.length = len)
    (hb : s + len ≤ (recv1 st.buffer).length)
    (hr2 : ∀ b : List Nat,
      rustSlice (recv2 b) s (s + len) = rustSlice b s (s + len)) :
    ∃ s1 s2 : LoopState,
      cycleStep recv1 l1 a1 (submitWrite st ((s, s + len), v)) = some s1
      ∧ s1.snapshot = some (recv1 st.buffer)
      ∧ cycleStep recv2 l2 a2 s1 = some s2
      ∧ ∃ d : List Nat, s2.snapshot = some d
          ∧ rustSlice d s (s + len) = some v := by
  subst hv
  have hvlen : v.length = (s + v.length) - s := by omega
  have hse : s ≤ s + v.length := Nat.le_add_right s v.length
  have happ := applyWrite_eq (recv1 st.buffer) v s (s + v.length) hvlen hse hb
  have hdrain : drainWrites (recv1 st.buffer)
        (st.pending ++ [((s, s + v.length), v)])
      = some ((recv1 st.buffer).take s ++ v
          ++ (recv1 st.buffer).drop (s + v.length)) := by
    rw [hpend, List.nil_append]
    simp [drainWrites, happ]
  have hstep1 := cycleStep_run recv1 l1 a1
    (submitWrite st ((s, s + v.length), v))
    ((recv1 st.buffer).take s ++ v ++ (recv1 st.buffer).drop (s + v.length))
    hdrain
  have hstep2 := cycleStep_run recv2 l2 a2
    { buffer := (recv1 st.buffer).take s ++ v
        ++ (recv1 st.buffer).drop (s + v.length)
      snapshot := some (recv1 st.buffer)
      cycleFlag := true
      readyFlag := if !st.isReady && l1 && (a1 == 8) then true
                   else st.readyFlag
      isReady := if !st.isReady && l1 && (a1 == 8) then true
                 else st.isReady
      pending := [] }
    (recv2 ((recv1 st.buffer).take s ++ v
        ++ (recv1 st.buffer).drop (s + v.length)))
    rfl
  refine ⟨_, _, hstep1, rfl, hstep2,
    recv2 ((recv1 st.buffer).take s ++ v
        ++ (recv1 st.buffer).drop (s + v.length)), rfl, ?_⟩
  rw [hr2]
  have hlen1 : ((recv1 st.buffer).take s ++ v
      ++ (recv1 st.buffer).drop (s + v.length)).length
      = (recv1 st.buffer).length := by
    simp [List.length_take, List.length_drop]
    omega
  have hsl : rustSlice ((recv1 st.buffer).take s ++ v
      ++ (recv1 st.buffer).drop (s + v.length)) s (s + v.length)
      = some ((((recv1 st.buffer).take s ++ v
          ++ (recv1 st.buffer).drop (s + v.length)).drop s).take
              (s + v.length - s)) := by
    rw [rustSlice, if_pos]
    exact ⟨hse, by rw [hlen1]; exact hb⟩
  rw [hsl]
  have hsw := slice_of_write (recv1 st.buffer) v s (by omega)
  rw [show s + v.length - s = v.length from by omega]
  rw [hsw]

/-- Witness for C2: a 2-byte write into a 4-byte image is invisible in
the cycle it is submitted and reads back verbatim from the next cycle's
snapshot. -/
theorem C2_one_cycle_write_latency_witness :
    ∃ s1 s2 : LoopState,
      cycleStep (fun b => b) true 8
          (submitWrite
            ⟨[1, 2, 3, 4], some [1, 2, 3, 4], true, false, false, []⟩
            ((0, 2), [9, 9])) = some s1
      ∧ s1.snapshot = some [1, 2, 3, 4]
      ∧ cycleStep (fun b => b) true 8 s1 = some s2
      ∧ ∃ d : List Nat, s2.snapshot = some d
          ∧ rustSlice d 0 2 = some [9, 9] :=
  C2_one_cycle_write_latency (fun b => b) (fun b => b) true true 8 8
    ⟨[1, 2, 3, 4], some [1, 2, 3, 4], true, false, false, []⟩
    0 2 [9, 9] rfl rfl (by decide) (fun _ => rfl)

/-- C3: the claim states the readiness gate never returns to false and
that `wait_for_ready` called after the gate has fired returns
immediately. The code contradicts it: `wait_for_ready` first SETS THE
FLAG TO FALSE (line 198) and then blocks until it is true, and the
cyclic loop — whose thread-local `is_ready` is already true — never sets
the flag again (lines 96–109), so the flag stays false through every
subsequent cycle and the call blocks forever. This theorem evaluates the
code at the failing scenario: gate fired, then `wait_for_ready`
entered. -/
theorem C3_reset_clears_fired_gate (st : LoopState)
    (hfired : st.isReady = true) :
    (waitForReadyReset st).readyFlag = false
    ∧ ∀ (ps : List ((List Nat → List Nat) × Bool × Nat)) (s' : LoopState),
        runSteps ps (waitForReadyReset st) = some s' →
        s'.readyFlag = false := by
  refine ⟨rfl, fun ps s' h => ?_⟩
  exact (runSteps_ready_stuck ps (waitForReadyReset st) s' h hfired rfl).1

/-- Witness for C3's theorem: a concrete fired controller state, one
further cycle with the bus fully operational — the flag stays false. -/
theorem C3_reset_clears_fired_gate_witness :
    (waitForReadyReset
        ⟨[0], some [0], true, true, true, []⟩).readyFlag = false
    ∧ LoopState.readyFlag
        ⟨[0], some [0], true, false, true, []⟩ = false :=
  ⟨(C3_reset_clears_fired_gate ⟨[0], some [0], true, true, true, []⟩ rfl).1,
   (C3_reset_clears_fired_gate ⟨[0], some [0], true, true, true, []⟩ rfl).2
     [(fun b => b, true, 8)] ⟨[0], some [0], true, false, true, []⟩ rfl⟩

/-- C8: a pending write whose value length differs from its target
range's length makes the apply step panic (`copy_from_slice` or slice
indexing), on any buffer; hence any cycle that drains such a write
panics the cyclic thread. -/
theorem C8_mismatched_write_panics (s e : Nat) (v : List Nat)
    (hmm : v.length ≠ e - s) :
    (∀ data : List Nat, applyWrite data ((s, e), v) = none)
    ∧ ∀ (recv : List Nat → List Nat) (l : Bool) (a : Nat)
        (st : LoopState), ((s, e), v) ∈ st.pending →
        cycleStep recv l a st = none := by
  refine ⟨applyWrite_mismatch_none s e v hmm, fun recv l a st hmem => ?_⟩
  simp only [cycleStep]
  rw [drainWrites_mem_none st.pending (recv st.buffer) ((s, e), v) hmem
    (applyWrite_mismatch_none s e v hmm)]

/-- Witness for C8: a 1-byte value aimed at a 2-byte range panics the
cycle that drains it. -/
theorem C8_mismatched_write_panics_witness :
    applyWrite [1, 2, 3, 4] ((0, 2), [9]) = none
    ∧ cycleStep (fun b => b) true 8
        ⟨[1, 2, 3, 4], none, false, false, false, [((0, 2), [9])]⟩
      = none :=
  ⟨(C8_mismatched_write_panics 0 2 [9] (by decide)).1 [1, 2, 3, 4],
   (C8_mismatched_write_panics 0 2 [9] (by decide)).2 (fun b => b) true 8
     ⟨[1, 2, 3, 4], none, false, false, false, [((0, 2), [9])]⟩
     (by simp)⟩

/-- C10: a `set_pdo_registers` call with fewer values than the name's
offset records enqueues exactly one write per value, paired positionally
with the first records in order, and draining those writes leaves every
byte outside the written ranges — in particular the remaining records'
(disjoint) ranges — unchanged. -/
theorem C10_fewer_values_frame (offsets : SlaveOffsets) (slave_id : Nat)
    (register : String) (rs : List (Nat × Nat)) (values : List (List Nat))
    (h1 : get_reg_addr_ranges offsets slave_id register = some rs)
    (h2 : values.length < rs.length) :
    set_pdo_registers offsets slave_id register values
      = some (true, rs.zip values)
    ∧ (rs.zip values).length = values.length
    ∧ (rs.zip values).map Prod.fst = rs.take values.length
    ∧ (rs.zip values).map Prod.snd = values
    ∧ ∀ (data out : List Nat) (p : Nat),
        drainWrites data (rs.zip values) = some out →
        (∀ w ∈ rs.zip values, p < w.1.1 ∨ w.1.2 ≤ p) →
        out[p]? = data[p]? := by
  refine ⟨?_, ?_, ?_, ?_, ?_⟩
  · have hne : values.length ≠ rs.length := by omega
    simp [set_pdo_registers, h1, hne]
  · rw [List.length_zip]; omega
  · rw [zip_take_len_left]
    exact List.map_fst_zip (rs.take values.length) values
      (by simp [List.length_take])
  · exact List.map_snd_zip rs values (le_of_lt h2)
  · exact fun data out p h hall => drainWrites_outside (rs.zip values)
      data out p h hall

/-- Witness for C10: one value against two records enqueues exactly the
first positional write, and the second record's bytes are untouched by
the drain. -/
theorem C10_fewer_values_frame_witness :
    set_pdo_registers [(0, [("x", [⟨1, 16, 0, 0⟩, ⟨1, 16, 2, 0⟩])])]
        0 "x" [[9, 9]]
      = some (true, [((0, 2), [9, 9])])
    ∧ [9, 9, 3, 4][2]? = [1, 2, 3, 4][2]? := by
  have h := C10_fewer_values_frame
    [(0, [("x", [⟨1, 16, 0, 0⟩, ⟨1, 16, 2, 0⟩])])] 0 "x"
    [(0, 2), (2, 4)] [[9, 9]] rfl (by decide)
  refine ⟨h.1, ?_⟩
  exact h.2.2.2.2 [1, 2, 3, 4] [9, 9, 3, 4] 2 (by decide) (by decide)

/-- C7: the claim states that every initialization failure is reported
as a single construction failure. It is not: the enumeration calls
(`get_info`, `get_slave_info`, `get_sync`, `get_pdo`, `get_pdo_entry`)
are followed by `.unwrap()`, so their failure aborts by panic instead of
returning an error. Concretely, a bus whose `get_info` call fails makes
`init_master` panic — the failure is not reported as a construction
error (though still no controller is produced). -/
theorem C7_counterexample :
    initMaster busInfoFails = Res.panic
    ∧ initMaster busInfoFails ≠ Res.err
    ∧ ∀ r : Nat × SlaveOffsets × SlaveNames,
        initMaster busInfoFails ≠ Res.ok r :=
  ⟨rfl,
   fun h => Res.noConfusion (Eq.trans (Eq.symm rfl) h),
   fun _ h => Res.noConfusion (Eq.trans (Eq.symm rfl) h)⟩

/-- C7 (amended): every `?`-propagated failure yields a construction
error — bus open, reserve and domain creation directly; slave
configuration (`configure_slave`), PDO configuration (`config_sm_pdos`),
entry registration (`register_pdo_entry`) and the bind check err at the
slave level (the whole configuration/registration phase can only
succeed or err, never panic) and any erring slave makes construction
err — while the enumeration `unwrap`s (`get_info`, `get_slave_info`,
`get_sync`, `get_pdo`, `get_pdo_entry`) abort by panic, at the slave
level and hence at construction level. In every case no controller
value is produced, and a successful construction is complete: its
offset table has an entry for every enumerated device position. -/
theorem C7_fail_fast_amended (m : BusModel) :
    (m.openOk = false → initMaster m = .err)
    ∧ (m.openOk = true → m.reserveOk = false → initMaster m = .err)
    ∧ (m.openOk = true → m.reserveOk = true → m.createDomain = none →
        initMaster m = .err)
    ∧ (m.openOk = true → m.reserveOk = true →
        (∃ d, m.createDomain = some d) → m.slaveCount = none →
        initMaster m = .panic)
    ∧ (∀ i, m.slaveInfo i = none → processSlave m i = .panic)
    ∧ (∀ i name sc, m.slaveInfo i = some (name, sc) →
        buildPdos m i sc = none → processSlave m i = .panic)
    ∧ (∀ i sc j, j < sc → m.syncInfo i j = none →
        buildPdos m i sc = none)
    ∧ (∀ i sc j sp, j < sc → m.syncInfo i j = some sp →
        m.pdoInfo i j = none → buildPdos m i sc = none)
    ∧ (∀ i sc j sp pidx ecount e, j < sc → m.syncInfo i j = some sp →
        m.pdoInfo i j = some (pidx, ecount) → e < ecount →
        m.pdoEntry i j e = none → buildPdos m i sc = none)
    ∧ (∀ i name sc pdos, m.slaveInfo i = some (name, sc) →
        buildPdos m i sc = some pdos → m.configureSlaveOk i = false →
        processSlave m i = .err)
    ∧ (∀ i p ps pdoIdx k po, m.configSmPdosOk i pdoIdx = false →
        registerPdos m i (p :: ps) pdoIdx k po = .err)
    ∧ (∀ i e es k po, m.registerEntry i k = none →
        registerEntries m i (e :: es) k po = .err)
    ∧ (∀ i ps pdoIdx k po, registerPdos m i ps pdoIdx k po ≠ .panic)
    ∧ (∀ i name sc pdos, m.slaveInfo i = some (name, sc) →
        buildPdos m i sc = some pdos → m.configureSlaveOk i = true →
        registerPdos m i pdos 0 0 [] = .err → processSlave m i = .err)
    ∧ (∀ i name sc pdos po k, m.slaveInfo i = some (name, sc) →
        buildPdos m i sc = some pdos → m.configureSlaveOk i = true →
        registerPdos m i pdos 0 0 [] = .ok (po, k) →
        (m.configInfoPos i = none ∨ m.configInfoPos i = some none) →
        processSlave m i = .err)
    ∧ (m.openOk = true → m.reserveOk = true →
        (∃ d, m.createDomain = some d) → ∀ n, m.slaveCount = some n →
        ((∀ i, i < n → processSlave m i ≠ .panic) →
          (∃ i, i < n ∧ processSlave m i = .err) → initMaster m = .err)
        ∧ ((∀ i, i < n → processSlave m i ≠ .err) →
          (∃ i, i < n ∧ processSlave m i = .panic) →
            initMaster m = .panic))
    ∧ (∀ (d : Nat) (offs : SlaveOffsets) (names : SlaveNames),
        initMaster m = .ok (d, offs, names) →
        ∃ n, m.slaveCount = some n
          ∧ offs.map Prod.fst = List.range n
          ∧ ∀ i, i < n → (List.lookup i offs).isSome = true) := by
  refine ⟨fun h => by simp [initMaster, h],
    fun h1 h2 => by simp [initMaster, h1, h2],
    fun h1 h2 h3 => by simp [initMaster, h1, h2, h3],
    fun h1 h2 hd hsc => ?_,
    fun i hsi => by simp [processSlave, hsi],
    fun i name sc hsi hbp => by simp [processSlave, hsi, hbp],
    fun i sc j hj hsync => ?_,
    fun i sc j sp hj hsync hpdo => ?_,
    fun i sc j sp pidx ecount e hj hsync hpdo he hent => ?_,
    fun i name sc pdos hsi hbp hcfg => by
      simp [processSlave, hsi, hbp, hcfg],
    fun i p ps pdoIdx k po hc => by simp [registerPdos, hc],
    fun i e es k po hr => by simp [registerEntries, hr],
    fun i ps pdoIdx k po => registerPdos_ne_panic m i ps pdoIdx k po,
    fun i name sc pdos hsi hbp hcfg hrp => by
      simp [processSlave, hsi, hbp, hcfg, hrp],
    fun i name sc pdos po k hsi hbp hcfg hrp hci => ?_,
    fun h1 h2 hd n hsc => ?_,
    fun d offs names h => initMaster_ok_complete m d offs names h⟩
  · obtain ⟨d, hd⟩ := hd
    simp [initMaster, h1, h2, hd, hsc]
  · exact mapM_none_of_mem _ (List.range sc) j (List.mem_range.mpr hj)
      (by simp [hsync])
  · exact mapM_none_of_mem _ (List.range sc) j (List.mem_range.mpr hj)
      (by simp [hsync, hpdo])
  · have hbe : buildEntries m i j ecount = none :=
      mapM_none_of_mem _ (List.range ecount) e (List.mem_range.mpr he)
        (by simp [hent])
    exact mapM_none_of_mem _ (List.range sc) j (List.mem_range.mpr hj)
      (by simp [hsync, hpdo, hbe])
  · rcases hci with hci | hci
    · simp [processSlave, hsi, hbp, hcfg, hrp, hci]
    · simp [processSlave, hsi, hbp, hcfg, hrp, hci]
  · obtain ⟨d, hd⟩ := hd
    constructor
    · intro hnp hex
      obtain ⟨i, hi, hie⟩ := hex
      have hloop := initSlavesFrom_err_of_mem m (List.range n)
        (fun i2 hi2 => hnp i2 (List.mem_range.mp hi2))
        ⟨i, List.mem_range.mpr hi, hie⟩
      simp [initMaster, h1, h2, hd, hsc, hloop]
    · intro hne hex
      obtain ⟨i, hi, hie⟩ := hex
      have hloop := initSlavesFrom_panic_of_mem m (List.range n)
        (fun i2 hi2 => hne i2 (List.mem_range.mp hi2))
        ⟨i, List.mem_range.mpr hi, hie⟩
      simp [initMaster, h1, h2, hd, hsc, hloop]

/-- Witness for C7's amended theorem: one concrete bus per failure kind
— open failure errs; a get_info failure panics; a get_slave_info
failure panics the slave step and construction; a get_sync failure
fails enumeration; configure_slave, config_sm_pdos, register_pdo_entry
and bind-check failures err; and a successful one-slave construction
covers device position 0. -/
theorem C7_fail_fast_amended_witness :
    initMaster busOpenFails = Res.err
    ∧ initMaster busInfoFails = Res.panic
    ∧ processSlave busSlaveInfoFails 0 = Res.panic
    ∧ initMaster busSlaveInfoFails = Res.panic
    ∧ buildPdos busSyncFails 0 1 = none
    ∧ processSlave busCfgFails 0 = Res.err
    ∧ initMaster busCfgFails = Res.err
    ∧ registerPdos busSmCfgFails 0 [(0, [⟨5, 16, "x"⟩])] 0 0 [] = Res.err
    ∧ registerEntries busEntryRegFails 0 [⟨5, 16, "x"⟩] 0 [] = Res.err
    ∧ processSlave busBindFails 0 = Res.err
    ∧ ∃ n, (busOne 16).slaveCount = some n
        ∧ ([(0, [("x", [⟨5, 16, 3, 0⟩])])] : SlaveOffsets).map Prod.fst
            = List.range n
        ∧ ∀ i, i < n →
            (List.lookup i
              ([(0, [("x", [⟨5, 16, 3, 0⟩])])] : SlaveOffsets)).isSome
              = true := by
  obtain ⟨-, -, -, i4, i5, -, -, -, -, -, -, -, -, -, -, i16, -⟩ :=
    C7_fail_fast_amended busSlaveInfoFails
  obtain ⟨-, -, -, -, -, -, s7, -, -, -, -, -, -, -, -, -, -⟩ :=
    C7_fail_fast_amended busSyncFails
  obtain ⟨-, -, -, -, -, -, -, -, -, c10, -, -, -, -, -, c16, -⟩ :=
    C7_fail_fast_amended busCfgFails
  obtain ⟨-, -, -, -, -, -, -, -, -, -, m11, -, -, -, -, -, -⟩ :=
    C7_fail_fast_amended busSmCfgFails
  obtain ⟨-, -, -, -, -, -, -, -, -, -, -, r12, -, -, -, -, -⟩ :=
    C7_fail_fast_amended busEntryRegFails
  obtain ⟨-, -, -, -, -, -, -, -, -, -, -, -, -, -, b15, -, -⟩ :=
    C7_fail_fast_amended busBindFails
  refine ⟨(C7_fail_fast_amended busOpenFails).1 rfl,
    (C7_fail_fast_amended busInfoFails).2.2.2.1 rfl rfl ⟨0, rfl⟩ rfl,
    i5 0 rfl, ?_, s7 0 1 0 (by omega) rfl,
    c10 0 "dev" 1 [(0, [⟨5, 16, "x"⟩])] rfl rfl rfl, ?_,
    m11 0 (0, [⟨5, 16, "x"⟩]) [] 0 0 [] rfl,
    r12 0 ⟨5, 16, "x"⟩ [] 0 [] rfl,
    b15 0 "dev" 1 [(0, [⟨5, 16, "x"⟩])] [("x", [⟨5, 16, 3, 0⟩])] 1
      rfl rfl rfl rfl (Or.inr rfl),
    (C7_fail_fast_amended (busOne 16)).2.2.2.2.2.2.2.2.2.2.2.2.2.2.2.2
      0 [(0, [("x", [⟨5, 16, 3, 0⟩])])] [("dev", 0)] rfl⟩
  · exact (i16 rfl rfl ⟨0, rfl⟩ 1 rfl).2
      (fun i hi => by
        have h0 : i = 0 := by omega
        subst h0
        decide)
      ⟨0, by omega, by decide⟩
  · exact (c16 rfl rfl ⟨0, rfl⟩ 1 rfl).1
      (fun i hi => by
        have h0 : i = 0 := by omega
        subst h0
        decide)
      ⟨0, by omega, by decide⟩

/-- C9: the bit length recorded in the offset table is the driver's
reported bit length reduced modulo 256 (`bit_len as u8`, line 292), and
every byte-range computation for the entry therefore uses
`(bit_length mod 256) / 8`: traced end to end through `init_master` into
`get_reg_addr_range` on a one-entry bus whose reported bit length is an
arbitrary `L`. -/
theorem C9_bitlen_truncated_mod256 (L : Nat) :
    initMaster (busOne L)
      = .ok (0, [(0, [("x", [⟨5, L % 256, 3, 0⟩])])], [("dev", 0)])
    ∧ get_reg_addr_range [(0, [("x", [⟨5, L % 256, 3, 0⟩])])] 0 "x" 0
      = some (3, 3 + L % 256 / 8) :=
  ⟨rfl, rfl⟩

end ECat
